import Mathlib

/-!
Shallow embedding of the event-dispatch and call-routing core of the
SATIM call-center automation repository, together with proofs checking
the natural-language specification against it.

Embedded source files:
* `src/orchestration/event_bus.py` (`Event`, `EventBus.subscribe`,
  `EventBus.publish`, `EventBus.get_event_history`);
* `src/agents/call_routing.py` (`CallRouter.handle_incoming_call`,
  `find_best_agent`, `assign_call_to_agent`, `add_to_queue`,
  `get_queue_position`, `handle_agent_status_change`,
  `handle_call_ended`, `process_queue`);
* `src/models.py` (the `Agent`, `Call`, `CallQueue` rows; columns the
  routing code never touches — email, skills, transcript, summary,
  resolved, wait_time — are omitted).

Modelling conventions:
* `datetime.utcnow()` becomes an explicit `now : Nat` argument (whole
  seconds since an arbitrary epoch); all timestamps are `Nat`.
* The database session holds its rows in insertion order; autoincrement
  primary keys are modelled by the `nextCallId` / `nextQueueId`
  counters.  An un-`ORDER BY`ed query returns rows in that stored order.
* Dynamic event payloads (`Dict[str, Any]`) become association lists of
  `Value` (int-or-string).
* Events published by the router are collected in the `published`
  trace field of the state; none of the router's own subscriptions
  listens to the event types the router publishes, so no re-entrant
  dispatch is lost by this.
* A bus handler is a function `Event → ω → ω × Bool` on a world type
  `ω`: the first component is whatever effect the handler had before
  returning or raising, the `Bool` records whether it completed without
  raising.  `publish`'s `try/except` means the flag is inspected by
  nobody: delivery continues regardless.
-/

/-- A dynamically typed payload value (`Any` in the Python source). -/
inductive Value where
  | intV : Int → Value
  | strV : String → Value
deriving DecidableEq, Repr

/-- `Event` dataclass of `event_bus.py`: type tag, payload mapping,
timestamp and correlation id. -/
structure Event where
  type : String
  data : List (String × Value)
  timestamp : Nat
  correlation_id : String
deriving DecidableEq, Repr

/-- `EventBus` of `event_bus.py`, parametric in the handlers' world
type `ω`.  `subscribers` is the `Dict[str, List[Callable]]` (a Python
dict preserves insertion order, hence an association list), and
`event_history` the `List[Event]`. -/
structure EventBus (ω : Type) where
  subscribers : List (String × List (Event → ω → ω × Bool))
  event_history : List Event

/-- A freshly constructed bus (`EventBus.__init__`). -/
def EventBus.empty {ω : Type} : EventBus ω := ⟨[], []⟩

/-- `EventBus.subscribe`: create the key's list if absent, then append
the handler (no de-duplication). -/
def EventBus.subscribe {ω : Type} (bus : EventBus ω) (event_type : String)
    (handler : Event → ω → ω × Bool) : EventBus ω :=
  if bus.subscribers.any (fun p => p.1 == event_type) then
    { bus with subscribers :=
        (bus.subscribers.map
          (fun p => if p.1 == event_type then (p.1, p.2 ++ [handler]) else p)) }
  else
    { bus with subscribers := bus.subscribers ++ [(event_type, [handler])] }

/-- The handler list for an event type: `self.subscribers[event.type]`
when the key is present, `[]` otherwise (the `if event.type in
self.subscribers` guard). -/
def getHandlers {ω : Type} (subs : List (String × List (Event → ω → ω × Bool)))
    (t : String) : List (Event → ω → ω × Bool) :=
  match subs.find? (fun p => p.1 == t) with
  | some p => p.2
  | none => []

/-- `EventBus.publish`: append the event to the history, then invoke
every handler registered for its type in order.  Each invocation sits
in a `try/except` that only logs, so a raising handler (flag `false`)
neither stops the loop nor escapes to the caller: only the handler's
world effect is kept. -/
def EventBus.publish {ω : Type} (bus : EventBus ω) (e : Event) (w : ω) :
    EventBus ω × ω :=
  ({ bus with event_history := bus.event_history ++ [e] },
   (getHandlers bus.subscribers e.type).foldl (fun w h => (h e w).1) w)

/-- `EventBus.get_event_history`: `none` models the `event_type=None`
default.  The Python guard is `if event_type:`, so an empty string is
falsy and also returns the unfiltered history. -/
def EventBus.get_event_history {ω : Type} (bus : EventBus ω)
    (event_type : Option String) : List Event :=
  match event_type with
  | some t => if t == "" then bus.event_history
              else bus.event_history.filter (fun e => e.type == t)
  | none => bus.event_history

/-- Publishing a whole list of events in order (used to state stream
properties of the bus). -/
def publishAll {ω : Type} (bus : EventBus ω) (es : List Event) (w : ω) :
    EventBus ω × ω :=
  es.foldl (fun bw e => bw.1.publish e bw.2) (bus, w)

/-- `Agent` row of `models.py` (id, name, status). -/
structure Agent where
  id : Nat
  name : String
  status : String
deriving DecidableEq, Repr

/-- `Call` row of `models.py`.  `duration` is an `Int` because the
source stores `int((call_end - call_start).total_seconds())`. -/
structure Call where
  id : Nat
  caller_phone : String
  agent_id : Option Nat
  call_start : Option Nat
  call_end : Option Nat
  duration : Option Int
  status : String
deriving DecidableEq, Repr

/-- `CallQueue` row of `models.py`. -/
structure CallQueue where
  id : Nat
  caller_phone : String
  priority : Int
  created_at : Nat
  assigned_agent_id : Option Nat
deriving DecidableEq, Repr

/-- The database state seen by `CallRouter`, plus the trace of events
the router has published on the bus. -/
structure RouterState where
  agents : List Agent
  calls : List Call
  queue : List CallQueue
  nextCallId : Nat
  nextQueueId : Nat
  published : List Event
deriving DecidableEq, Repr

/-- Update the first element satisfying `p` (the row returned by
`query.filter(...).first()`, mutated in place by the ORM). -/
def updateFirst {α : Type} (p : α → Bool) (f : α → α) : List α → List α
  | [] => []
  | x :: rest => if p x then f x :: rest else x :: updateFirst p f rest

/-- `query(Agent).filter(Agent.status == "available").all()`. -/
def availableAgents (s : RouterState) : List Agent :=
  s.agents.filter (fun a => a.status == "available")

/-- `query(Call).filter(Call.agent_id == aid, Call.status == "active").count()`. -/
def activeCallCount (s : RouterState) (aid : Nat) : Nat :=
  (s.calls.filter (fun c => c.agent_id == some aid && c.status == "active")).length

/-- The `min(agent_loads, key=agent_loads.get)` step of
`find_best_agent`: first key of the loads dict attaining the minimal
load (Python's `min` keeps the earliest of equal elements, and the
dict iterates in query order); the fold keeps the earlier agent on
ties for the same reason. -/
def selectLeastLoaded (s : RouterState) (a : Agent) (rest : List Agent) : Agent :=
  rest.foldl
    (fun best x =>
      if activeCallCount s x.id < activeCallCount s best.id then x else best) a

/-- `CallRouter.find_best_agent`: among the available agents, return
the one with the fewest active calls (`None` when none is available). -/
def find_best_agent (s : RouterState) : Option Agent :=
  match availableAgents s with
  | [] => none
  | a :: rest => some (selectLeastLoaded s a rest)

/-- `CallRouter.assign_call_to_agent`: look the agent up by id; if
found, mark it busy, insert a fresh `active` call bound to it
(`call_start` filled by the column default `utcnow`), and publish a
`call_assigned` event.  If the id matches no agent, do nothing. -/
def assign_call_to_agent (s : RouterState) (caller_phone : String)
    (agent_id : Nat) (now : Nat) : RouterState :=
  match s.agents.find? (fun a => a.id == agent_id) with
  | none => s
  | some agent =>
      let call : Call :=
        { id := s.nextCallId, caller_phone := caller_phone,
          agent_id := some agent_id, call_start := some now,
          call_end := none, duration := none, status := "active" }
      let ev : Event :=
        { type := "call_assigned",
          data := [("call_id", Value.intV call.id),
                   ("caller_phone", Value.strV caller_phone),
                   ("agent_id", Value.intV agent_id),
                   ("agent_name", Value.strV agent.name)],
          timestamp := now,
          correlation_id := "call_" ++ toString call.id }
      { s with
        agents := (updateFirst (fun a => a.id == agent_id)
                    (fun a => { a with status := "busy" }) s.agents),
        calls := s.calls ++ [call],
        nextCallId := s.nextCallId + 1,
        published := s.published ++ [ev] }

/-- `CallRouter.get_queue_position`: 0 for an unknown id; otherwise the
count of unassigned entries created no later than the entry.  Priority
plays no part in this query. -/
def get_queue_position (s : RouterState) (queue_id : Nat) : Nat :=
  match s.queue.find? (fun q => q.id == queue_id) with
  | none => 0
  | some item =>
      (s.queue.filter
        (fun q => decide (q.created_at ≤ item.created_at) &&
                  q.assigned_agent_id == none)).length

/-- `CallRouter.add_to_queue`: insert a fresh waiting entry
(`created_at` filled by the column default `utcnow`), then publish a
`call_queued` event whose `position` field is computed on the
post-insert state. -/
def add_to_queue (s : RouterState) (caller_phone : String) (priority : Int)
    (now : Nat) : RouterState :=
  let item : CallQueue :=
    { id := s.nextQueueId, caller_phone := caller_phone,
      priority := priority, created_at := now, assigned_agent_id := none }
  let s1 : RouterState :=
    { s with queue := s.queue ++ [item], nextQueueId := s.nextQueueId + 1 }
  let ev : Event :=
    { type := "call_queued",
      data := [("queue_id", Value.intV item.id),
               ("caller_phone", Value.strV caller_phone),
               ("priority", Value.intV priority),
               ("position", Value.intV (get_queue_position s1 item.id))],
      timestamp := now,
      correlation_id := "queue_" ++ toString item.id }
  { s1 with published := s1.published ++ [ev] }

/-- `CallRouter.handle_incoming_call`: assign directly when an agent is
available, otherwise enqueue. -/
def handle_incoming_call (s : RouterState) (caller_phone : String)
    (priority : Int) (now : Nat) : RouterState :=
  match find_best_agent s with
  | some agent => assign_call_to_agent s caller_phone agent.id now
  | none => add_to_queue s caller_phone priority now

/-- Strict "serve before" order on queue entries: higher priority
first, then earlier creation (`order_by(priority.desc(), created_at.asc())`). -/
def queueBefore (a b : CallQueue) : Bool :=
  b.priority < a.priority || (a.priority == b.priority && a.created_at < b.created_at)

/-- The first row of a stable sort under `queueBefore`: the fold keeps
the earlier row unless a strictly earlier-serving one appears. -/
def selectMin (a : CallQueue) (rest : List CallQueue) : CallQueue :=
  rest.foldl (fun best x => if queueBefore x best then x else best) a

/-- Waiting entries of a state (active queue membership,
`assigned_agent_id IS NULL`). -/
def waitingEntries (s : RouterState) : List CallQueue :=
  s.queue.filter (fun q => q.assigned_agent_id == none)

/-- The `query(CallQueue).filter(assigned_agent_id.is_(None))
.order_by(priority.desc(), created_at.asc()).first()` query of
`process_queue`: the minimal waiting entry under `queueBefore`, ties
resolved toward the earlier row (a stable sort leaves it first). -/
def peekQueue (s : RouterState) : Option CallQueue :=
  match waitingEntries s with
  | [] => none
  | a :: rest => some (selectMin a rest)

/-- `CallRouter.process_queue`: take the highest-priority waiting
entry; if some agent is available, run the assignment path and mark the
entry assigned.  The source performs this at most once per trigger —
there is no loop. -/
def process_queue (s : RouterState) (now : Nat) : RouterState :=
  match peekQueue s with
  | none => s
  | some queued_call =>
      match find_best_agent s with
      | none => s
      | some agent =>
          let s1 := assign_call_to_agent s queued_call.caller_phone agent.id now
          { s1 with queue :=
              (updateFirst (fun q => q.id == queued_call.id)
                (fun q => { q with assigned_agent_id := some agent.id }) s1.queue) }

/-- The call update block of `handle_call_ended`: set `call_end` and
the `completed` status, and — when `call_start` is present — the
duration `int((call_end - call_start).total_seconds())`. -/
def completeCall (now : Nat) (c : Call) : Call :=
  let c1 := { c with call_end := some now, status := "completed" }
  match c.call_start with
  | some st => { c1 with duration := some ((now : Int) - (st : Int)) }
  | none => c1

/-- `CallRouter.handle_call_ended`: stamp the call (if found)
completed with its end time and duration, set the event's agent (if
found) available, then process the queue. -/
def handle_call_ended (s : RouterState) (call_id : Nat) (agent_id : Nat)
    (now : Nat) : RouterState :=
  let s1 : RouterState :=
    { s with
      calls := (updateFirst (fun c => c.id == call_id) (completeCall now) s.calls),
      agents := (updateFirst (fun a => a.id == agent_id)
        (fun a => { a with status := "available" }) s.agents) }
  process_queue s1 now

/-- `CallRouter.handle_agent_status_change`: only an `available`
transition has an effect — it triggers `process_queue`. -/
def handle_agent_status_change (s : RouterState) (new_status : String)
    (now : Nat) : RouterState :=
  if new_status == "available" then process_queue s now else s

/-- Modelled from the spec: the queue-position formula the spec states
for `position(entryId)` — the count of waiting entries with
`(priority > entry.priority) OR (priority == entry.priority AND
createdAt <= entry.createdAt)`.  Written to be compared with
`get_queue_position`, which is the code's query. -/
def specPosition (s : RouterState) (queue_id : Nat) : Nat :=
  match s.queue.find? (fun q => q.id == queue_id) with
  | none => 0
  | some item =>
      (s.queue.filter
        (fun q => (item.priority < q.priority ||
                   (q.priority == item.priority &&
                    decide (q.created_at ≤ item.created_at))) &&
                  q.assigned_agent_id == none)).length

/-- The call-record invariant the spec states for `Call`: a non-null
agent exactly on `active` calls is the claimed (and refuted) version;
the provable direction is: an `active` call has a non-null agent, and
`duration` is only ever set on a `completed` call. -/
def RouterInv (s : RouterState) : Prop :=
  ∀ c ∈ s.calls,
    (c.status = "active" → c.agent_id ≠ none) ∧
    (c.duration ≠ none → c.status = "completed")

/-! Concrete states and handlers used by counterexamples and witnesses. -/

/-- Two available agents and two waiting entries. -/
def stTwoTwo : RouterState :=
  { agents := [⟨1, "A", "available"⟩, ⟨2, "B", "available"⟩],
    calls := [], queue := [⟨1, "X", 1, 0, none⟩, ⟨2, "Y", 1, 1, none⟩],
    nextCallId := 1, nextQueueId := 3, published := [] }

/-- A waiting queue holding a low-priority early entry and a
high-priority late entry. -/
def stPrioMix : RouterState :=
  { agents := [], calls := [],
    queue := [⟨1, "X", 1, 0, none⟩, ⟨2, "Y", 5, 1, none⟩],
    nextCallId := 1, nextQueueId := 3, published := [] }

/-- A single available agent and nothing else. -/
def stOneAgent : RouterState :=
  { agents := [⟨1, "Alice", "available"⟩], calls := [], queue := [],
    nextCallId := 1, nextQueueId := 1, published := [] }

/-- One agent and four waiting entries with priorities 1,2,1,2 in
arrival order (the FIFO-within-priority drain scenario). -/
def stDrain : RouterState :=
  { agents := [⟨1, "A", "available"⟩],
    calls := [],
    queue := [⟨1, "P1", 1, 0, none⟩, ⟨2, "P2", 2, 1, none⟩,
              ⟨3, "P3", 1, 2, none⟩, ⟨4, "P4", 2, 3, none⟩],
    nextCallId := 1, nextQueueId := 5, published := [] }

/-- The drain scenario run through the router: one `process_queue`
trigger, then each assigned call is ended, which frees the agent and
drains the next entry. -/
def stDrainFinal : RouterState :=
  handle_call_ended
    (handle_call_ended (handle_call_ended (process_queue stDrain 10) 1 1 20) 2 1 30)
    3 1 40

/-- The one-agent state after an incoming call was assigned and then
ended: the resulting call is `completed` but still holds its agent. -/
def stCompleted : RouterState :=
  handle_call_ended (handle_incoming_call stOneAgent "X" 1 0) 1 1 10

/-- A busy agent with one active call. -/
def stBusyAgent : RouterState :=
  { agents := [⟨1, "A", "busy"⟩],
    calls := [⟨1, "X", some 1, some 0, none, none, "active"⟩], queue := [],
    nextCallId := 2, nextQueueId := 1, published := [] }

/-- A sample event of type `call_assigned`. -/
def evA : Event := ⟨"call_assigned", [], 0, ""⟩

/-- A bus (over the trivial world) that has already recorded `evA`. -/
def busHist : EventBus Unit := ⟨[], [evA]⟩

/-- An empty bus over the world `Nat × List Event` used by the
isolation witness. -/
def busUnit : EventBus (Nat × List Event) := EventBus.empty

/-- A handler that counts its invocations and then raises. -/
def failingHandler : Event → Nat × List Event → (Nat × List Event) × Bool :=
  fun _ p => ((p.1 + 1, p.2), false)

/-- A handler that records every event it observes. -/
def recordingHandler : Event → Nat × List Event → (Nat × List Event) × Bool :=
  fun e p => ((p.1, p.2 ++ [e]), true)

/-- Two sample events of type `test`. -/
def evT1 : Event := ⟨"test", [], 1, ""⟩

/-- A second sample event of type `test`. -/
def evT2 : Event := ⟨"test", [], 2, ""⟩

/-! Helper lemmas. -/

/-- `updateFirst` is the identity when nothing matches. -/
theorem updateFirst_of_no_match {α : Type} (p : α → Bool) (f : α → α) :
    ∀ l : List α, (∀ x ∈ l, p x = false) → updateFirst p f l = l := by
  intro l h
  induction l with
  | nil => rfl
  | cons x rest ih =>
      have hx : p x = false := h x (List.mem_cons_self x rest)
      simp [updateFirst, hx]
      exact ih (fun y hy => h y (List.mem_cons_of_mem x hy))

/-- If `p` is insensitive to `f`, then looking up `p` after
`updateFirst p f` returns the updated row. -/
theorem find?_updateFirst {α : Type} (p : α → Bool) (f : α → α)
    (hp : ∀ a, p (f a) = p a) :
    ∀ l : List α, (updateFirst p f l).find? p = (l.find? p).map f := by
  intro l
  induction l with
  | nil => rfl
  | cons x rest ih =>
      by_cases hx : p x
      · simp [updateFirst, hx, List.find?_cons, hp]
      · simp only [Bool.not_eq_true] at hx
        simp [updateFirst, hx, List.find?_cons, ih]

/-- `publish` never touches the subscriber registry. -/
theorem publish_subscribers {ω : Type} (bus : EventBus ω) (e : Event) (w : ω) :
    (bus.publish e w).1.subscribers = bus.subscribers := rfl

/-- `publish` appends exactly the published event to the history. -/
theorem publish_event_history {ω : Type} (bus : EventBus ω) (e : Event) (w : ω) :
    (bus.publish e w).1.event_history = bus.event_history ++ [e] := rfl

/-- On a bus whose registry maps `t` to the two handlers `f` then `g`,
publishing any stream of `t`-events applies, for each event in order,
first `f`'s world effect and then `g`'s — regardless of either
handler's success flag. -/
theorem publishAll_pair {ω : Type} (t : String) (f g : Event → ω → ω × Bool) :
    ∀ (es : List Event) (bus : EventBus ω) (w : ω),
      bus.subscribers = [(t, [f, g])] → (∀ e ∈ es, e.type = t) →
      (publishAll bus es w).2 = es.foldl (fun w e => (g e (f e w).1).1) w := by
  intro es
  induction es with
  | nil => intro bus w _ _; rfl
  | cons e es ih =>
      intro bus w hsubs htype
      have he : e.type = t := htype e (List.mem_cons_self e es)
      have hval : (bus.publish e w).2 = (g e (f e w).1).1 := by
        simp [EventBus.publish, getHandlers, hsubs, he]
      have hstep : publishAll bus (e :: es) w =
          publishAll (bus.publish e w).1 es (bus.publish e w).2 := rfl
      rw [hstep, ih (bus.publish e w).1 (bus.publish e w).2
            (by rw [publish_subscribers, hsubs])
            (fun x hx => htype x (List.mem_cons_of_mem e hx)),
          hval, List.foldl_cons]

/-! Claim theorems: event bus (C2, C10). -/

/-- C2: with two handlers registered for the same event type, the
first of which may fail on every event, publishing any stream of
events of that type still delivers each event to both handlers in
registration order: the resulting world is the fold of both handlers'
effects, independent of every success flag.  In particular a
first-always-failing handler never prevents the second from observing
100% of the published events, no failure reaches the publisher, and
`publish` (a total function) never fails. -/
theorem publish_handler_isolation {ω : Type} (t : String)
    (f g : Event → ω → ω × Bool) (es : List Event) (w : ω)
    (h : ∀ e ∈ es, e.type = t) :
    (publishAll ((EventBus.empty.subscribe t f).subscribe t g) es w).2 =
      es.foldl (fun w e => (g e (f e w).1).1) w := by
  apply publishAll_pair t f g es _ w _ h
  simp [EventBus.empty, EventBus.subscribe]

/-- C2 witness: a counting-then-raising first handler and a recording
second handler; after publishing two `test` events the first handler
ran twice (and failed twice) while the second observed both events. -/
theorem publish_handler_isolation_witness :
    (publishAll ((EventBus.empty.subscribe "test" failingHandler).subscribe
        "test" recordingHandler) [evT1, evT2] ((0 : Nat), ([] : List Event))).2 =
      (2, [evT1, evT2]) := by
  rw [publish_handler_isolation "test" failingHandler recordingHandler
        [evT1, evT2] ((0 : Nat), ([] : List Event)) (by decide)]
  rfl

/-- C10 (counterexample): `get_event_history` applied to the empty
string — a type argument — returns the full history instead of the
events of that type, because the Python guard `if event_type:` treats
`""` as falsy. -/
theorem get_event_history_empty_type_cex :
    busHist.get_event_history (some "") ≠
      busHist.event_history.filter (fun e => e.type == "") := by decide

/-- C10 (amended): every `publish` appends exactly the published event
to the history and leaves the subscriber registry unchanged, for every
bus (so also with no subscriber for the type, and whatever the
handlers do); `get_event_history` with no argument then returns the
full history, and with a NON-EMPTY type argument returns exactly the
events of that type in publish order. -/
theorem publish_frame_and_history {ω : Type} (bus : EventBus ω) (e : Event)
    (w : ω) (t : String) (ht : t ≠ "") :
    (bus.publish e w).1.subscribers = bus.subscribers ∧
    (bus.publish e w).1.event_history = bus.event_history ++ [e] ∧
    (bus.publish e w).1.get_event_history none = bus.event_history ++ [e] ∧
    (bus.publish e w).1.get_event_history (some t) =
      bus.get_event_history (some t) ++ (if e.type == t then [e] else []) := by
  refine ⟨rfl, rfl, rfl, ?_⟩
  have ht2 : (t == "") = false := beq_eq_false_iff_ne.mpr ht
  simp only [EventBus.publish, EventBus.get_event_history, ht2,
    Bool.false_eq_true, if_false, List.filter_append]
  cases hc : e.type == t <;> simp [List.filter, hc]

/-- C10 witness: publishing `evA` on the bus that already recorded one
`call_assigned` event makes the filtered history two events long. -/
theorem publish_frame_and_history_witness :
    (busHist.publish evA ()).1.get_event_history (some "call_assigned") =
      [evA, evA] := by
  rw [(publish_frame_and_history busHist evA () "call_assigned"
        (by decide)).2.2.2]
  decide

/-! Claim theorems: queue draining (C1). -/

/-- C1 (counterexample): `process_queue` triggered on a state with two
waiting entries and two available agents returns with one waiting
entry and one available agent still coexisting — it is not a fixed
point of draining, because the source assigns at most one entry per
trigger. -/
theorem process_queue_not_fixed_point_cex :
    waitingEntries (process_queue stTwoTwo 5) ≠ [] ∧
    availableAgents (process_queue stTwoTwo 5) ≠ [] := by decide

/-! Claim theorems: queue position (C3). -/

/-- C3 (counterexample): the position query counts only
creation-time order and ignores priority: for the late high-priority
entry of `stPrioMix` the code returns 2 while the claimed
priority-then-FIFO rank is 1. -/
theorem get_queue_position_ignores_priority_cex :
    get_queue_position stPrioMix 2 = 2 ∧ specPosition stPrioMix 2 = 1 ∧
    get_queue_position stPrioMix 2 ≠ specPosition stPrioMix 2 := by decide

/-! Claim theorems: call record invariant (C4). -/

/-- C4 (counterexample): after a call is assigned and then ended
through the router's own operations, the completed call still carries
its agent, so `agent` non-null is not equivalent to
`status == "active"`. -/
theorem call_agent_iff_active_cex :
    ¬ (∀ c ∈ stCompleted.calls, (c.agent_id ≠ none ↔ c.status = "active")) := by
  decide

/-! Claim theorems: unknown call id (C9). -/

/-- C9 (counterexample): a `call_ended` event whose call id matches no
call does NOT leave the state unchanged: the agent named in the event
is still flipped to `available`. -/
theorem handle_call_ended_unknown_call_cex :
    (∀ c ∈ stBusyAgent.calls, c.id ≠ 99) ∧
    (handle_call_ended stBusyAgent 99 1 5).agents ≠ stBusyAgent.agents := by
  decide

/-- C9 (amended): a `call_ended` event whose call id matches no call
modifies no call record and is not fatal (handling is total), but it
still sets the event's agent to `available` and still runs the queue
drain on the resulting state. -/
theorem handle_call_ended_unknown_call (s : RouterState) (cid aid now : Nat)
    (h : ∀ c ∈ s.calls, c.id ≠ cid) :
    ∃ s1 : RouterState,
      handle_call_ended s cid aid now = process_queue s1 now ∧
      s1.calls = s.calls ∧ s1.queue = s.queue ∧
      s1.agents = updateFirst (fun a => a.id == aid)
        (fun a => { a with status := "available" }) s.agents := by
  refine ⟨_, rfl, ?_, rfl, rfl⟩
  show updateFirst _ _ s.calls = s.calls
  apply updateFirst_of_no_match
  intro c hc
  exact beq_eq_false_iff_ne.mpr (h c hc)

/-- C9 witness: the amended statement at the concrete busy-agent state
and the unknown call id 99. -/
theorem handle_call_ended_unknown_call_witness :
    ∃ s1 : RouterState,
      handle_call_ended stBusyAgent 99 1 5 = process_queue s1 5 ∧
      s1.calls = stBusyAgent.calls ∧ s1.queue = stBusyAgent.queue ∧
      s1.agents = updateFirst (fun a => a.id == 1)
        (fun a => { a with status := "available" }) stBusyAgent.agents :=
  handle_call_ended_unknown_call stBusyAgent 99 1 5 (by decide)

/-! Order lemmas for the queue-draining fold. -/

/-- `queueBefore` is irreflexive. -/
theorem queueBefore_irrefl (a : CallQueue) : queueBefore a a = false := by
  simp [queueBefore]

/-- `queueBefore` is transitive. -/
theorem queueBefore_trans {a b c : CallQueue} (h1 : queueBefore a b = true)
    (h2 : queueBefore b c = true) : queueBefore a c = true := by
  simp only [queueBefore, Bool.or_eq_true, Bool.and_eq_true, decide_eq_true_eq,
    beq_iff_eq] at h1 h2 ⊢
  omega

/-- `queueBefore` is asymmetric. -/
theorem queueBefore_asymm {a b : CallQueue} (h : queueBefore a b = true) :
    queueBefore b a = false := by
  cases hba : queueBefore b a
  · rfl
  · have h2 := queueBefore_trans h hba
    rw [queueBefore_irrefl] at h2
    exact absurd h2 (by simp)

/-- The fold of `selectMin` returns an element of the list. -/
theorem selectMin_mem : ∀ (rest : List CallQueue) (a : CallQueue),
    selectMin a rest ∈ a :: rest := by
  intro rest
  induction rest with
  | nil => intro a; exact List.mem_cons_self a []
  | cons y rest ih =>
      intro a
      have hstep : selectMin a (y :: rest) =
          selectMin (if queueBefore y a then y else a) rest := rfl
      rw [hstep]
      cases hy : queueBefore y a
      · simp only [hy, Bool.false_eq_true, if_false]
        rcases List.mem_cons.mp (ih a) with he | hr
        · rw [he]; exact List.mem_cons_self a (y :: rest)
        · exact List.mem_cons_of_mem a (List.mem_cons_of_mem y hr)
      · simp only [hy, if_true]
        rcases List.mem_cons.mp (ih y) with he | hr
        · rw [he]; exact List.mem_cons_of_mem a (List.mem_cons_self y rest)
        · exact List.mem_cons_of_mem a (List.mem_cons_of_mem y hr)

/-- The fold of `selectMin` either keeps the seed or strictly improves
on it, and nothing in scope serves strictly before the result. -/
theorem selectMin_not_before : ∀ (rest : List CallQueue) (a : CallQueue),
    (selectMin a rest = a ∨ queueBefore (selectMin a rest) a = true) ∧
    (∀ x, x = a ∨ x ∈ rest → queueBefore x (selectMin a rest) = false) := by
  intro rest
  induction rest with
  | nil =>
      intro a
      refine ⟨Or.inl rfl, ?_⟩
      intro x hx
      rcases hx with rfl | h
      · exact queueBefore_irrefl x
      · cases h
  | cons y rest ih =>
      intro a
      have hstep : selectMin a (y :: rest) =
          selectMin (if queueBefore y a then y else a) rest := rfl
      cases hy : queueBefore y a
      · rw [hstep]
        simp only [hy, Bool.false_eq_true, if_false]
        obtain ⟨ihm, ihmin⟩ := ih a
        refine ⟨ihm, ?_⟩
        intro x hx
        rcases hx with rfl | hx
        · exact ihmin x (Or.inl rfl)
        · rcases List.mem_cons.mp hx with rfl | hxr
          · cases hym : queueBefore x (selectMin a rest)
            · rfl
            · exfalso
              rcases ihm with he | hlt
              · rw [he] at hym
                rw [hym] at hy
                exact absurd hy (by simp)
              · have := queueBefore_trans hym hlt
                rw [this] at hy
                exact absurd hy (by simp)
          · exact ihmin x (Or.inr hxr)
      · rw [hstep]
        simp only [hy, if_true]
        obtain ⟨ihm, ihmin⟩ := ih y
        constructor
        · right
          rcases ihm with he | hlt
          · rw [he]; exact hy
          · exact queueBefore_trans hlt hy
        · intro x hx
          rcases hx with rfl | hx
          · rcases ihm with he | hlt
            · rw [he]; exact queueBefore_asymm hy
            · exact queueBefore_asymm (queueBefore_trans hlt hy)
          · rcases List.mem_cons.mp hx with rfl | hxr
            · exact ihmin x (Or.inl rfl)
            · exact ihmin x (Or.inr hxr)

/-- What `peekQueue` returns: a waiting entry of the queue that no
waiting entry serves strictly before. -/
theorem peekQueue_spec (s : RouterState) (q : CallQueue)
    (h : peekQueue s = some q) :
    q ∈ s.queue ∧ q.assigned_agent_id = none ∧
    ∀ w ∈ waitingEntries s, queueBefore w q = false := by
  cases hw : waitingEntries s with
  | nil =>
      have h2 : peekQueue s = none := by unfold peekQueue; rw [hw]
      rw [h2] at h; cases h
  | cons a rest =>
      have h2 : peekQueue s = some (selectMin a rest) := by
        unfold peekQueue; rw [hw]
      rw [h2] at h
      have hq : q = selectMin a rest := (Option.some.inj h).symm
      have hmem : q ∈ waitingEntries s := by
        rw [hw]; rw [hq]; exact selectMin_mem rest a
      have hfilter := List.mem_filter.mp (by rw [waitingEntries] at hmem; exact hmem)
      refine ⟨hfilter.1, by simpa using hfilter.2, ?_⟩
      intro w hwmem
      rcases List.mem_cons.mp hwmem with he | hwr
      · rw [hq]; exact (selectMin_not_before rest a).2 w (Or.inl he)
      · rw [hq]; exact (selectMin_not_before rest a).2 w (Or.inr hwr)

/-- `assign_call_to_agent` never touches the waiting queue. -/
theorem assign_call_to_agent_queue (s : RouterState) (cp : String)
    (aid now : Nat) : (assign_call_to_agent s cp aid now).queue = s.queue := by
  cases hf : s.agents.find? (fun a => a.id == aid) with
  | none => simp [assign_call_to_agent, hf]
  | some ag => simp [assign_call_to_agent, hf]

/-- Marking a waiting entry (unique by id) assigned removes exactly
one entry from the waiting set. -/
theorem waiting_length_updateFirst (aid : Nat) (q : CallQueue) :
    ∀ l : List CallQueue,
      (l.map (fun x => x.id)).Nodup → q ∈ l → q.assigned_agent_id = none →
      (List.filter (fun x => x.assigned_agent_id == none)
        (updateFirst (fun x => x.id == q.id)
          (fun x => { x with assigned_agent_id := some aid }) l)).length + 1 =
      (List.filter (fun x => x.assigned_agent_id == none) l).length := by
  intro l
  induction l with
  | nil => intro _ hq _; cases hq
  | cons x rest ih =>
      intro hnodup hq hw
      rw [List.map_cons, List.nodup_cons] at hnodup
      obtain ⟨hxid, hrest⟩ := hnodup
      by_cases hx : (x.id == q.id) = true
      · have hxq : x = q := by
          rcases List.mem_cons.mp hq with he | hqrest
          · exact he.symm
          · exfalso
            apply hxid
            rw [beq_iff_eq] at hx
            rw [hx]
            exact List.mem_map_of_mem (fun z => z.id) hqrest
        rw [updateFirst]
        simp only [hx, if_true]
        subst hxq
        simp [List.filter_cons, hw]
      · have hqrest : q ∈ rest := by
          rcases List.mem_cons.mp hq with he | hr
          · exfalso; apply hx; rw [he]; exact beq_self_eq_true x.id
          · exact hr
        rw [updateFirst]
        rw [Bool.not_eq_true] at hx
        simp only [hx, Bool.false_eq_true, if_false]
        cases hxa : x.assigned_agent_id == none
        · simp only [List.filter_cons, hxa, Bool.false_eq_true, if_false]
          exact ih hrest hqrest hw
        · simp only [List.filter_cons, hxa, if_true, List.length_cons]
          have := ih hrest hqrest hw
          omega

/-! Claim theorems: queue draining, continued (C1 amended). -/

/-- C1 (amended): a single `process_queue` trigger performs at most
one assignment — if the waiting set is empty or no agent is available
the state is returned unchanged, and otherwise exactly one waiting
entry (with distinct queue ids) leaves the waiting set; the trigger
does not loop to a fixed point. -/
theorem process_queue_single_assignment (s : RouterState) (now : Nat)
    (hnodup : (s.queue.map (fun x => x.id)).Nodup) :
    ((peekQueue s = none ∨ find_best_agent s = none) →
      process_queue s now = s) ∧
    (∀ q a, peekQueue s = some q → find_best_agent s = some a →
      (waitingEntries (process_queue s now)).length + 1 =
        (waitingEntries s).length) := by
  constructor
  · intro h
    rcases h with h | h
    · simp [process_queue, h]
    · cases hp : peekQueue s with
      | none => simp [process_queue, hp]
      | some q => simp [process_queue, hp, h]
  · intro q a hq ha
    have hspec := peekQueue_spec s q hq
    have hqueue : (process_queue s now).queue =
        updateFirst (fun x => x.id == q.id)
          (fun x => { x with assigned_agent_id := some a.id }) s.queue := by
      simp only [process_queue, hq, ha]
      rw [assign_call_to_agent_queue]
    unfold waitingEntries
    rw [hqueue]
    exact waiting_length_updateFirst a.id q s.queue hnodup hspec.1 hspec.2.1

/-- C1 witness: the amended statement at the two-agents/two-entries
state, where one trigger removes exactly one of the two waiting
entries. -/
theorem process_queue_single_assignment_witness :
    (waitingEntries (process_queue stTwoTwo 5)).length + 1 =
      (waitingEntries stTwoTwo).length :=
  (process_queue_single_assignment stTwoTwo 5 (by decide)).2
    ⟨1, "X", 1, 0, none⟩ ⟨1, "A", "available"⟩ (by decide) (by decide)

/-! Claim theorems: selection order and FIFO within priority (C5). -/

/-- C5: the entry `process_queue` selects next is a waiting entry of
maximal priority, ties broken by earliest creation time; and in the
concrete scenario of enqueueing priorities 1,2,1,2 in that order and
draining one entry at a time (each completed call freeing the agent),
the calls are assigned in the order P2, P4 (the priority-2 entries, in
arrival order) and then P1, P3 (the priority-1 entries, in arrival
order). -/
theorem peek_highest_priority_fifo :
    (∀ (s : RouterState) (q : CallQueue), peekQueue s = some q →
      q ∈ s.queue ∧ q.assigned_agent_id = none ∧
      ∀ w ∈ s.queue, w.assigned_agent_id = none →
        w.priority ≤ q.priority ∧
        (w.priority = q.priority → q.created_at ≤ w.created_at)) ∧
    stDrainFinal.calls.map (fun c => c.caller_phone) = ["P2", "P4", "P1", "P3"] := by
  constructor
  · intro s q h
    obtain ⟨hmem, hwait, hmin⟩ := peekQueue_spec s q h
    refine ⟨hmem, hwait, ?_⟩
    intro w hw hwassigned
    have hwm : w ∈ waitingEntries s := by
      rw [waitingEntries]
      exact List.mem_filter.mpr ⟨hw, by simp [hwassigned]⟩
    have hnb := hmin w hwm
    simp only [queueBefore, Bool.or_eq_false_iff, Bool.and_eq_false_iff,
      decide_eq_false_iff_not, beq_eq_false_iff_ne] at hnb
    rcases hnb with ⟨h1, h2⟩
    constructor
    · omega
    · intro hpe
      rcases h2 with h2 | h2
      · exact absurd hpe h2
      · omega
  · decide

/-- C5 witness: the selection property at the drain state — the entry
picked first is P2, the earliest of the highest-priority band. -/
theorem peek_highest_priority_fifo_witness :
    (⟨2, "P2", 2, 1, none⟩ : CallQueue) ∈ stDrain.queue ∧
    (⟨2, "P2", 2, 1, none⟩ : CallQueue).assigned_agent_id = none ∧
    ∀ w ∈ stDrain.queue, w.assigned_agent_id = none →
      w.priority ≤ (⟨2, "P2", 2, 1, none⟩ : CallQueue).priority ∧
      (w.priority = (⟨2, "P2", 2, 1, none⟩ : CallQueue).priority →
        (⟨2, "P2", 2, 1, none⟩ : CallQueue).created_at ≤ w.created_at) :=
  peek_highest_priority_fifo.1 stDrain ⟨2, "P2", 2, 1, none⟩ (by decide)

/-! Claim theorems: load balancing (C6). -/

/-- On an id-sorted candidate list, the loads fold returns a member of
the list whose load is minimal, and on load ties the smallest id. -/
theorem selectLeastLoaded_spec (s : RouterState) :
    ∀ (rest : List Agent) (a : Agent),
      ((a :: rest).Pairwise (fun x y => x.id < y.id)) →
      (selectLeastLoaded s a rest ∈ a :: rest) ∧
      (∀ x ∈ a :: rest,
        activeCallCount s (selectLeastLoaded s a rest).id < activeCallCount s x.id ∨
        (activeCallCount s (selectLeastLoaded s a rest).id = activeCallCount s x.id ∧
         (selectLeastLoaded s a rest).id ≤ x.id)) := by
  intro rest
  induction rest with
  | nil =>
      intro a _
      refine ⟨List.mem_cons_self a [], ?_⟩
      intro x hx
      rcases List.mem_cons.mp hx with he | h
      · exact Or.inr ⟨by rw [he]; exact rfl, by rw [he]; exact Nat.le_refl a.id⟩
      · cases h
  | cons y rest ih =>
      intro a hpair
      have hstep : selectLeastLoaded s a (y :: rest) =
          selectLeastLoaded s
            (if activeCallCount s y.id < activeCallCount s a.id then y else a)
            rest := rfl
      rw [List.pairwise_cons] at hpair
      obtain ⟨hay, hpair2⟩ := hpair
      by_cases hlt : activeCallCount s y.id < activeCallCount s a.id
      · rw [hstep, if_pos hlt]
        obtain ⟨ihmem, ihmin⟩ := ih y hpair2
        constructor
        · exact List.mem_cons_of_mem a ihmem
        · intro x hx
          rcases List.mem_cons.mp hx with he | hx2
          · left
            have hy := ihmin y (List.mem_cons_self y rest)
            rw [he]
            rcases hy with h | ⟨h, _⟩
            · omega
            · omega
          · exact ihmin x hx2
      · rw [hstep, if_neg hlt]
        rw [List.pairwise_cons] at hpair2
        obtain ⟨hyz, hrest⟩ := hpair2
        have hpair3 : (a :: rest).Pairwise (fun x y => x.id < y.id) := by
          rw [List.pairwise_cons]
          exact ⟨fun z hz => hay z (List.mem_cons_of_mem y hz), hrest⟩
        obtain ⟨ihmem, ihmin⟩ := ih a hpair3
        constructor
        · rcases List.mem_cons.mp ihmem with he | h
          · rw [he]; exact List.mem_cons_self a (y :: rest)
          · exact List.mem_cons_of_mem a (List.mem_cons_of_mem y h)
        · intro x hx
          rcases List.mem_cons.mp hx with he | hx2
          · have := ihmin a (List.mem_cons_self a rest)
            rw [he]
            exact this
          · rcases List.mem_cons.mp hx2 with he2 | hx3
            · have hma := ihmin a (List.mem_cons_self a rest)
              have hnl : activeCallCount s a.id ≤ activeCallCount s y.id :=
                Nat.le_of_not_lt hlt
              have hayid : a.id < y.id := hay y (List.mem_cons_self y rest)
              rw [he2]
              rcases hma with h | ⟨h1, h2⟩
              · left; omega
              · rcases Nat.lt_or_ge (activeCallCount s a.id)
                  (activeCallCount s y.id) with hc | hc
                · left; omega
                · right; exact ⟨by omega, by omega⟩
            · exact ihmin x (List.mem_cons_of_mem a hx3)

/-- C6: whenever some agent is available (and the directory is stored
in ascending id order, as autoincrement insertion produces),
`find_best_agent` returns an available agent whose count of active
calls is minimal among the available agents, ties broken by the lowest
agent id — a function of the state alone. -/
theorem find_best_agent_least_loaded (s : RouterState)
    (hsorted : s.agents.Pairwise (fun x y => x.id < y.id))
    (b : Agent) (hb : b ∈ s.agents) (hav : b.status = "available") :
    ∃ a, find_best_agent s = some a ∧ a ∈ s.agents ∧ a.status = "available" ∧
      ∀ c ∈ s.agents, c.status = "available" →
        (activeCallCount s a.id < activeCallCount s c.id ∨
         (activeCallCount s a.id = activeCallCount s c.id ∧ a.id ≤ c.id)) := by
  have hbav : b ∈ availableAgents s := by
    rw [availableAgents]
    exact List.mem_filter.mpr ⟨hb, by simp [hav]⟩
  cases havail : availableAgents s with
  | nil => rw [havail] at hbav; cases hbav
  | cons a0 rest =>
      have hpair : (a0 :: rest).Pairwise (fun x y => x.id < y.id) := by
        rw [← havail]
        exact List.Pairwise.sublist (List.filter_sublist s.agents) hsorted
      obtain ⟨hmem, hmin⟩ := selectLeastLoaded_spec s rest a0 hpair
      have hmav : selectLeastLoaded s a0 rest ∈ availableAgents s := by
        rw [havail]; exact hmem
      rw [availableAgents] at hmav
      refine ⟨selectLeastLoaded s a0 rest, ?_, ?_, ?_, ?_⟩
      · simp [find_best_agent, havail]
      · exact (List.mem_filter.mp hmav).1
      · have h2 := (List.mem_filter.mp hmav).2
        simpa using h2
      · intro c hc hcav
        have hcm : c ∈ availableAgents s := by
          rw [availableAgents]
          exact List.mem_filter.mpr ⟨hc, by simp [hcav]⟩
        rw [havail] at hcm
        exact hmin c hcm

/-- C6 witness: with two equally idle agents the selection is the one
with the smaller id. -/
theorem find_best_agent_least_loaded_witness :
    ∃ a, find_best_agent stTwoTwo = some a ∧ a ∈ stTwoTwo.agents ∧
      a.status = "available" ∧
      ∀ c ∈ stTwoTwo.agents, c.status = "available" →
        (activeCallCount stTwoTwo a.id < activeCallCount stTwoTwo c.id ∨
         (activeCallCount stTwoTwo a.id = activeCallCount stTwoTwo c.id ∧
          a.id ≤ c.id)) :=
  find_best_agent_least_loaded stTwoTwo (by decide) ⟨1, "A", "available"⟩
    (by decide) rfl

/-! Claim theorems: the call-record invariant (C4 amended). -/

/-- Elements of an `updateFirst` result satisfy `P` when the old
elements did and `f` always produces a `P`-element. -/
theorem updateFirst_forall {α : Type} (p : α → Bool) (f : α → α) (P : α → Prop) :
    ∀ l : List α, (∀ x ∈ l, P x) → (∀ x, P (f x)) →
      ∀ y ∈ updateFirst p f l, P y := by
  intro l
  induction l with
  | nil => intro _ _ y hy; cases hy
  | cons x rest ih =>
      intro hall hf y hy
      rw [updateFirst] at hy
      by_cases hx : p x = true
      · rw [if_pos hx] at hy
        rcases List.mem_cons.mp hy with he | hr
        · rw [he]; exact hf x
        · exact hall y (List.mem_cons_of_mem x hr)
      · rw [if_neg hx] at hy
        rcases List.mem_cons.mp hy with he | hr
        · rw [he]; exact hall x (List.mem_cons_self x rest)
        · exact ih (fun z hz => hall z (List.mem_cons_of_mem x hz)) hf y hr

/-- `completeCall` always stamps the call `completed`. -/
theorem completeCall_status (now : Nat) (c : Call) :
    (completeCall now c).status = "completed" := by
  cases h : c.call_start <;> simp [completeCall, h]

/-- Assigning a call preserves the call-record invariant: the new call
is `active` with its agent set and no duration. -/
theorem routerInv_assign (s : RouterState) (cp : String) (aid now : Nat)
    (h : RouterInv s) : RouterInv (assign_call_to_agent s cp aid now) := by
  cases hf : s.agents.find? (fun a => a.id == aid) with
  | none => simp only [assign_call_to_agent, hf]; exact h
  | some ag =>
      simp only [assign_call_to_agent, hf]
      intro c hc
      rcases List.mem_append.mp hc with hold | hnew
      · exact h c hold
      · rw [List.mem_singleton] at hnew
        subst hnew
        exact ⟨fun _ => by simp, fun hd => absurd rfl hd⟩

/-- `process_queue` preserves the call-record invariant. -/
theorem routerInv_process_queue (s : RouterState) (now : Nat)
    (h : RouterInv s) : RouterInv (process_queue s now) := by
  cases hp : peekQueue s with
  | none => simp only [process_queue, hp]; exact h
  | some q =>
      cases hf : find_best_agent s with
      | none => simp only [process_queue, hp, hf]; exact h
      | some a =>
          simp only [process_queue, hp, hf]
          intro c hc
          exact routerInv_assign s q.caller_phone a.id now h c hc

/-- C4 (amended): every router operation preserves the provable half
of the spec's call invariant — an `active` call always has a non-null
agent, and `duration` is set only on `completed` calls.  The converse
("`agent` non-null only if `active`") is refuted by
`call_agent_iff_active_cex`: completed calls keep their agent. -/
theorem call_invariant_preserved (s : RouterState) (cp : String) (p : Int)
    (cid aid : Nat) (now : Nat) (st : String) (h : RouterInv s) :
    RouterInv (handle_incoming_call s cp p now) ∧
    RouterInv (handle_call_ended s cid aid now) ∧
    RouterInv (process_queue s now) ∧
    RouterInv (handle_agent_status_change s st now) := by
  refine ⟨?_, ?_, routerInv_process_queue s now h, ?_⟩
  · cases hb : find_best_agent s with
    | some a =>
        simp only [handle_incoming_call, hb]
        exact routerInv_assign s cp a.id now h
    | none =>
        simp only [handle_incoming_call, hb]
        intro c hc
        exact h c hc
  · show RouterInv (process_queue _ now)
    apply routerInv_process_queue
    intro c hc
    refine updateFirst_forall (fun x => x.id == cid) (completeCall now) _
      s.calls h ?_ c hc
    intro x
    constructor
    · intro hst
      rw [completeCall_status] at hst
      exact absurd hst (by decide)
    · intro _
      exact completeCall_status now x
  · by_cases hst : (st == "available") = true
    · simp only [handle_agent_status_change, hst, if_true]
      exact routerInv_process_queue s now h
    · simp only [handle_agent_status_change, hst, if_false]
      exact h

/-- C4 witness: the invariant-preservation theorem at the one-agent
state (whose empty call table satisfies the invariant trivially). -/
theorem call_invariant_preserved_witness :
    RouterInv (handle_incoming_call stOneAgent "X" 1 0) ∧
    RouterInv (handle_call_ended stOneAgent 1 1 10) ∧
    RouterInv (process_queue stOneAgent 0) ∧
    RouterInv (handle_agent_status_change stOneAgent "available" 0) :=
  call_invariant_preserved stOneAgent "X" 1 1 1 0 "available"
    (fun c hc => absurd hc (List.not_mem_nil c))

/-! Claim theorems: incoming calls (C7) and call completion (C8). -/

/-- A list containing a `p`-element has a `p`-successful lookup. -/
theorem find?_some_of_mem {α : Type} (p : α → Bool) (l : List α) (a : α)
    (ha : a ∈ l) (hp : p a = true) :
    ∃ x, l.find? p = some x ∧ p x = true := by
  have h1 : (l.find? p).isSome := List.find?_isSome.mpr ⟨a, ha, hp⟩
  cases hf : l.find? p with
  | none => rw [hf] at h1; cases h1
  | some x => exact ⟨x, rfl, List.find?_some hf⟩

/-- The loads fold stays inside the candidate list. -/
theorem selectLeastLoaded_mem (s : RouterState) :
    ∀ (rest : List Agent) (a : Agent), selectLeastLoaded s a rest ∈ a :: rest := by
  intro rest
  induction rest with
  | nil => intro a; exact List.mem_cons_self a []
  | cons y rest ih =>
      intro a
      have hstep : selectLeastLoaded s a (y :: rest) =
          selectLeastLoaded s
            (if activeCallCount s y.id < activeCallCount s a.id then y else a)
            rest := rfl
      rw [hstep]
      by_cases hy : activeCallCount s y.id < activeCallCount s a.id
      · rw [if_pos hy]
        rcases List.mem_cons.mp (ih y) with he | hr
        · rw [he]; exact List.mem_cons_of_mem a (List.mem_cons_self y rest)
        · exact List.mem_cons_of_mem a (List.mem_cons_of_mem y hr)
      · rw [if_neg hy]
        rcases List.mem_cons.mp (ih a) with he | hr
        · rw [he]; exact List.mem_cons_self a (y :: rest)
        · exact List.mem_cons_of_mem a (List.mem_cons_of_mem y hr)

/-- What `find_best_agent` returns is an available agent of the
directory. -/
theorem find_best_agent_available (s : RouterState) (a : Agent)
    (h : find_best_agent s = some a) :
    a ∈ s.agents ∧ a.status = "available" := by
  cases havail : availableAgents s with
  | nil =>
      have h2 : find_best_agent s = none := by unfold find_best_agent; rw [havail]
      rw [h2] at h; cases h
  | cons a0 rest =>
      have h2 : find_best_agent s = some (selectLeastLoaded s a0 rest) := by
        unfold find_best_agent; rw [havail]
      rw [h2] at h
      have ha := Option.some.inj h
      have hm : a ∈ availableAgents s := by
        rw [havail, ← ha]; exact selectLeastLoaded_mem s rest a0
      rw [availableAgents] at hm
      exact ⟨(List.mem_filter.mp hm).1, by simpa using (List.mem_filter.mp hm).2⟩

/-- C7: an incoming call with an available agent creates exactly one
new call — `active`, bound to the agent chosen by the load-balancing
policy, carrying the caller id — flips that agent to `busy`, and
publishes exactly one `call_assigned` event; with no available agent
it appends exactly one waiting entry carrying caller and priority and
publishes exactly one `call_queued` event whose `position` field is
the computed queue position of the new entry. -/
theorem handle_incoming_call_spec (s : RouterState) (cp : String) (p : Int)
    (now : Nat) :
    (∀ a, find_best_agent s = some a →
      ∃ c, (handle_incoming_call s cp p now).calls = s.calls ++ [c] ∧
        c.status = "active" ∧ c.agent_id = some a.id ∧ c.caller_phone = cp ∧
        ((handle_incoming_call s cp p now).agents.find?
            (fun x => x.id == a.id)).map (fun x => x.status) = some "busy" ∧
        ∃ e, (handle_incoming_call s cp p now).published = s.published ++ [e] ∧
          e.type = "call_assigned") ∧
    (find_best_agent s = none →
      ∃ q, (handle_incoming_call s cp p now).queue = s.queue ++ [q] ∧
        q.caller_phone = cp ∧ q.priority = p ∧ q.assigned_agent_id = none ∧
        ∃ e, (handle_incoming_call s cp p now).published = s.published ++ [e] ∧
          e.type = "call_queued" ∧
          e.data.lookup "position" =
            some (Value.intV
              (get_queue_position (handle_incoming_call s cp p now) q.id))) := by
  constructor
  · intro a ha
    obtain ⟨hmem, hav⟩ := find_best_agent_available s a ha
    obtain ⟨ag, hag, hpag⟩ := find?_some_of_mem (fun x => x.id == a.id)
      s.agents a hmem (beq_self_eq_true a.id)
    have hunfold : handle_incoming_call s cp p now =
        assign_call_to_agent s cp a.id now := by
      simp [handle_incoming_call, ha]
    rw [hunfold]
    simp only [assign_call_to_agent, hag]
    refine ⟨_, rfl, rfl, rfl, rfl, ?_, _, rfl, rfl⟩
    show ((updateFirst _ _ s.agents).find? _).map _ = some "busy"
    rw [find?_updateFirst (fun x : Agent => x.id == a.id)
          (fun x : Agent => { x with status := "busy" }) (fun x => rfl), hag]
    rfl
  · intro h
    have hunfold : handle_incoming_call s cp p now = add_to_queue s cp p now := by
      simp [handle_incoming_call, h]
    rw [hunfold]
    simp only [add_to_queue]
    refine ⟨_, rfl, rfl, rfl, rfl, _, rfl, rfl, ?_⟩
    rfl

/-- C7 witness: the assignment branch at the one-agent state. -/
theorem handle_incoming_call_spec_witness :
    ∃ c, (handle_incoming_call stOneAgent "X" 1 0).calls =
        stOneAgent.calls ++ [c] ∧
      c.status = "active" ∧
      c.agent_id = some (⟨1, "Alice", "available"⟩ : Agent).id ∧
      c.caller_phone = "X" ∧
      ((handle_incoming_call stOneAgent "X" 1 0).agents.find?
          (fun x => x.id == (⟨1, "Alice", "available"⟩ : Agent).id)).map
        (fun x => x.status) = some "busy" ∧
      ∃ e, (handle_incoming_call stOneAgent "X" 1 0).published =
          stOneAgent.published ++ [e] ∧ e.type = "call_assigned" :=
  (handle_incoming_call_spec stOneAgent "X" 1 0).1
    ⟨1, "Alice", "available"⟩ (by decide)

/-- `completeCall` keeps the call id. -/
theorem completeCall_id (now : Nat) (c : Call) :
    (completeCall now c).id = c.id := by
  cases h : c.call_start <;> simp [completeCall, h]

/-- C8: ending an existing call (start timestamp T0, event time T1,
agent id known to the directory) stamps it `completed` with end time
T1 and duration T1 − T0 in whole seconds, sets the referenced agent
back to `available`, and only then hands the resulting state to the
queue drain; the waiting queue itself is untouched by the update. -/
theorem handle_call_ended_spec (s : RouterState) (cid aid now : Nat)
    (c : Call) (t0 : Nat)
    (hc : s.calls.find? (fun x => x.id == cid) = some c)
    (ht : c.call_start = some t0)
    (ha : ∃ b ∈ s.agents, b.id = aid) :
    ∃ s1 : RouterState, handle_call_ended s cid aid now = process_queue s1 now ∧
      (s1.calls.find? (fun x => x.id == cid)).map
          (fun x => (x.status, x.call_end, x.duration)) =
        some ("completed", some now, some ((now : Int) - (t0 : Int))) ∧
      (s1.agents.find? (fun x => x.id == aid)).map (fun x => x.status) =
        some "available" ∧
      s1.queue = s.queue := by
  refine ⟨_, rfl, ?_, ?_, rfl⟩
  · show ((updateFirst (fun x => x.id == cid) (completeCall now) s.calls).find?
        (fun x => x.id == cid)).map _ = _
    rw [find?_updateFirst (fun x : Call => x.id == cid) (completeCall now)
          (fun x => by
            show ((completeCall now x).id == cid) = (x.id == cid)
            rw [completeCall_id]), hc]
    simp [completeCall, ht]
  · obtain ⟨b, hb, hbid⟩ := ha
    obtain ⟨b0, hb0, _⟩ := find?_some_of_mem (fun x => x.id == aid) s.agents b hb
      (by show (b.id == aid) = true; rw [hbid]; exact beq_self_eq_true aid)
    show ((updateFirst (fun x => x.id == aid) _ s.agents).find?
        (fun x => x.id == aid)).map _ = _
    rw [find?_updateFirst (fun x : Agent => x.id == aid)
          (fun x : Agent => { x with status := "available" }) (fun x => rfl), hb0]
    rfl

/-- C8 witness: ending the active call of the busy-agent state at time
5 yields duration 5 − 0 and frees agent 1. -/
theorem handle_call_ended_spec_witness :
    ∃ s1 : RouterState, handle_call_ended stBusyAgent 1 1 5 =
        process_queue s1 5 ∧
      (s1.calls.find? (fun x => x.id == 1)).map
          (fun x => (x.status, x.call_end, x.duration)) =
        some ("completed", some 5, some ((5 : Int) - (0 : Int))) ∧
      (s1.agents.find? (fun x => x.id == 1)).map (fun x => x.status) =
        some "available" ∧
      s1.queue = stBusyAgent.queue :=
  handle_call_ended_spec stBusyAgent 1 1 5
    ⟨1, "X", some 1, some 0, none, none, "active"⟩ 0 (by decide) rfl
    ⟨⟨1, "A", "busy"⟩, by decide, rfl⟩

/-! Claim theorems: queue position (C3 amended). -/

/-- With distinct ids, looking an entry up by its own id finds it. -/
theorem find?_id_of_nodup (q : CallQueue) :
    ∀ l : List CallQueue, (l.map (fun x => x.id)).Nodup → q ∈ l →
      l.find? (fun x => x.id == q.id) = some q := by
  intro l
  induction l with
  | nil => intro _ hq; cases hq
  | cons x rest ih =>
      intro hnodup hq
      rw [List.map_cons, List.nodup_cons] at hnodup
      obtain ⟨hxid, hrest⟩ := hnodup
      by_cases hx : (x.id == q.id) = true
      · have hxq : x = q := by
          rcases List.mem_cons.mp hq with he | hqrest
          · exact he.symm
          · exfalso
            apply hxid
            rw [beq_iff_eq] at hx
            rw [hx]
            exact List.mem_map_of_mem (fun z => z.id) hqrest
        rw [List.find?_cons_of_pos rest hx, hxq]
      · have hqrest : q ∈ rest := by
          rcases List.mem_cons.mp hq with he | hr
          · exfalso; apply hx; rw [he]; exact beq_self_eq_true x.id
          · exact hr
        rw [List.find?_cons_of_neg rest hx]
        exact ih hrest hqrest

/-- Splitting a filter count at a distinguished element with a unique
id: the count is one more than the count over the other elements. -/
theorem length_filter_split (e : CallQueue) (p : CallQueue → Bool) :
    ∀ l : List CallQueue, (l.map (fun x => x.id)).Nodup → e ∈ l → p e = true →
      (l.filter p).length =
        1 + (l.filter (fun x => p x && !(x.id == e.id))).length := by
  intro l
  induction l with
  | nil => intro _ he _; cases he
  | cons x rest ih =>
      intro hnodup he hpe
      rw [List.map_cons, List.nodup_cons] at hnodup
      obtain ⟨hxid, hrest⟩ := hnodup
      by_cases hx : (x.id == e.id) = true
      · have hxe : x = e := by
          rcases List.mem_cons.mp he with h2 | herest
          · exact h2.symm
          · exfalso
            apply hxid
            rw [beq_iff_eq] at hx
            rw [hx]
            exact List.mem_map_of_mem (fun z => z.id) herest
        subst hxe
        have hcongr : List.filter (fun y => p y && !(y.id == x.id)) rest =
            List.filter p rest := by
          apply List.filter_congr
          intro y hy
          have hne : (y.id == x.id) = false := by
            rw [beq_eq_false_iff_ne]
            intro hcontra
            apply hxid
            rw [← hcontra]
            exact List.mem_map_of_mem (fun z => z.id) hy
          rw [hne]
          simp
        rw [List.filter_cons, List.filter_cons]
        simp only [hpe, if_true, beq_self_eq_true, Bool.not_true,
          Bool.and_false, Bool.false_eq_true, if_false, List.length_cons,
          hcongr]
        omega
      · have herest : e ∈ rest := by
          rcases List.mem_cons.mp he with h2 | hr
          · exfalso; apply hx; rw [h2]; exact beq_self_eq_true x.id
          · exact hr
        rw [Bool.not_eq_true] at hx
        rw [List.filter_cons, List.filter_cons]
        rw [hx]
        simp only [Bool.not_false, Bool.and_true]
        cases hpx : p x
        · simp only [Bool.false_eq_true, if_false]
          exact ih hrest herest hpe
        · simp only [if_true, List.length_cons]
          have := ih hrest herest hpe
          omega

/-- C3 (amended): for a waiting entry `e` (queue ids distinct), the
position query returns `e`'s 1-based rank in creation-time order among
the waiting entries — one more than the number of OTHER waiting
entries created no later than `e` — with priority playing no role (the
claimed priority-then-FIFO rank is refuted by
`get_queue_position_ignores_priority_cex`). -/
theorem get_queue_position_fifo_rank (s : RouterState) (e : CallQueue)
    (hnodup : (s.queue.map (fun x => x.id)).Nodup)
    (he : e ∈ s.queue) (hw : e.assigned_agent_id = none) :
    get_queue_position s e.id =
      1 + (s.queue.filter
        (fun w => (decide (w.created_at ≤ e.created_at) &&
                   w.assigned_agent_id == none) && !(w.id == e.id))).length := by
  have hfind := find?_id_of_nodup e s.queue hnodup he
  unfold get_queue_position
  rw [hfind]
  exact length_filter_split e _ s.queue hnodup he (by simp [hw])

/-- C3 witness: the amended rank formula at the mixed-priority state,
where the later, higher-priority entry has position 2. -/
theorem get_queue_position_fifo_rank_witness :
    get_queue_position stPrioMix (⟨2, "Y", 5, 1, none⟩ : CallQueue).id =
      1 + (stPrioMix.queue.filter
        (fun w => (decide (w.created_at ≤
                     (⟨2, "Y", 5, 1, none⟩ : CallQueue).created_at) &&
                   w.assigned_agent_id == none) &&
                  !(w.id == (⟨2, "Y", 5, 1, none⟩ : CallQueue).id))).length :=
  get_queue_position_fifo_rank stPrioMix ⟨2, "Y", 5, 1, none⟩
    (by decide) (by decide) rfl
